import Mathlib

set_option maxHeartbeats 1000000

/-
  Verification development for the ctypegen repository
  (src/CTypeGen.py and src/CTypeGenRun.py).

  The Python sources are shallowly embedded below: pure functions become Lean
  functions, stateful code becomes explicit state passing, Python exceptions
  become `Except`, and Python dictionaries become association lists looked up
  by key.  Each definition carries a comment naming the source function it
  embeds.
-/

namespace CTypeGenProof

/-! ## Generic association-list helpers

Python dictionaries are modelled as association lists.  `lookupA` finds the
first binding of a key; `setA` replaces the first binding of a key, or appends
a new binding when the key is absent (matching `d[k] = v`). -/

def lookupA {κ α : Type} [DecidableEq κ] : List (κ × α) → κ → Option α
  | [], _ => none
  | (k, v) :: rest, key => if k = key then some v else lookupA rest key

def setA {κ α : Type} [DecidableEq κ] : List (κ × α) → κ → α → List (κ × α)
  | [], key, v => [(key, v)]
  | (k, w) :: rest, key, v =>
    if k = key then (key, v) :: rest else (k, w) :: setA rest key v

/-- Count of entries of an association list whose value satisfies `p`. -/
def countB {κ α : Type} (p : α → Bool) : List (κ × α) → Nat
  | [] => 0
  | (_, v) :: rest => (if p v then 1 else 0) + countB p rest

/-- Discriminator for `Except` results: `true` exactly when the computation
raised (Python `raise Exception(...)`). -/
def isErr {α β : Type} : Except α β → Bool
  | .error _ => true
  | .ok _ => false

/-! ## Layout verifier model (src/CTypeGenRun.py)

A generated class, as seen by the runtime checks.  `have_definition` models
`hasattr(cls, "have_definition")` (the marker written by `MemberType.define`
together with `native_size`), `native_size` models `cls.native_size` (the
DWARF-recorded expected size) and `sizeofRuntime` models `ctypes.sizeof(cls)`
(the runtime-computed size, an external oracle). -/

structure CheckedClass where
  have_definition : Bool
  native_size : Nat
  sizeofRuntime : Nat
deriving DecidableEq

/-- Embeds `CTypeGenRun.checkSize`: skip classes without the
`have_definition` marker; accept equal sizes; tolerate computed size 0
against expected size 1 (empty C++ class); anything else raises. -/
def checkSize (cls : CheckedClass) : Except String Unit :=
  if cls.have_definition = false then .ok ()
  else if cls.sizeofRuntime = cls.native_size then .ok ()
  else if cls.sizeofRuntime = 0 ∧ cls.native_size = 1 then .ok ()
  else .error ("type has wrong size. expected " ++ toString cls.native_size ++
    ", got " ++ toString cls.sizeofRuntime)

/-! ### Pointer-alignment check (src/CTypeGenRun.py)

`CTy` models a ctypes type as the alignment check sees it: a pointer type
(covering both `ctypes._Pointer` subclasses and `ctypes.c_void_p`), a
non-pointer scalar, or an aggregate with `_fields_`.  `ctypes.alignment` is an
external oracle, so each constructor carries the alignment it reports. -/

inductive CTy where
  | ptr (alignment : Nat)
  | scalar (alignment : Nat)
  | agg (alignment : Nat) (fields : List CTy)

def CTy.alignmentOf : CTy → Nat
  | .ptr a => a
  | .scalar a => a
  | .agg a _ => a

mutual
/-- Embeds `CTypeGenRun.hasPointers`: a type is pointer-bearing when it is
itself a pointer, or transitively through any `_fields_` entry.  The Python
memo table only caches results and is dropped from the pure model. -/
def hasPointers : CTy → Bool
  | .ptr _ => true
  | .scalar _ => false
  | .agg _ fields => hasPointersList fields
def hasPointersList : List CTy → Bool
  | [] => false
  | t :: rest => hasPointers t || hasPointersList rest
end

/-- One `_fields_` entry of the class under check, with the runtime offset
reported by the ctypes field descriptor (`getattr(t, fname).offset`). -/
structure CField where
  fname : String
  ftype : CTy
  offset : Nat

/-- Embeds `CTypeGenRun.checkUnalignedPtrs` over the `_fields_` list, with
`allowed` modelling the `allow_unaligned` attribute.  Returns the list of
warned field names (the `print` calls) or the raised message. -/
def checkUnalignedPtrs (allowed : List String) : List CField → Except String (List String)
  | [] => .ok []
  | f :: rest =>
    if f.offset % f.ftype.alignmentOf = 0 then checkUnalignedPtrs allowed rest
    else if hasPointers f.ftype = false then checkUnalignedPtrs allowed rest
    else if f.fname ∈ allowed then
      match checkUnalignedPtrs allowed rest with
      | .error e => .error e
      | .ok ws => .ok (f.fname :: ws)
    else .error ("unaligned ptr field " ++ f.fname)

/-- A field that makes `checkUnalignedPtrs` raise: misaligned, pointer-bearing
and not exempted. -/
def badField (allowed : List String) (f : CField) : Bool :=
  (!(f.offset % f.ftype.alignmentOf == 0)) && hasPointers f.ftype &&
    (!(allowed.contains f.fname))

/-- A field that makes `checkUnalignedPtrs` warn: misaligned, pointer-bearing
and exempted. -/
def warnField (allowed : List String) (f : CField) : Bool :=
  (!(f.offset % f.ftype.alignmentOf == 0)) && hasPointers f.ftype &&
    allowed.contains f.fname

/-! ## Primitive table and enum width (src/CTypeGen.py)

`primBaseTypes` copies `PrimitiveType.baseTypes` verbatim. -/

def primBaseTypes : List (String × String) := [
  ("long long unsigned int", "c_ulonglong"),
  ("long long int", "c_longlong"),
  ("long unsigned int", "c_ulong"),
  ("short unsigned int", "c_ushort"),
  ("unsigned int", "c_uint"),
  ("unsigned char", "c_ubyte"),
  ("signed char", "c_char"),
  ("char", "c_char"),
  ("long int", "c_long"),
  ("int", "c_int"),
  ("short int", "c_short"),
  ("float", "c_float"),
  ("_Bool", "c_bool"),
  ("bool", "c_bool"),
  ("double", "c_double"),
  ("long double", "c_longdouble"),
  ("wchar_t", "c_wchar")]

/-- Embeds `PrimitiveType.ctype`: look the DWARF base-type name up in the
table; an unmapped name raises. -/
def primCtype (nm : String) : Except String String :=
  match lookupA primBaseTypes nm with
  | some c => .ok c
  | none => .error ("no python ctype for primitive C type " ++ nm)

/-- Sequential rendering of several primitive names, modelling how an
exception raised for one type aborts the rest of the generation pass. -/
def renderPrimitives : List String → Except String (List String)
  | [] => .ok []
  | n :: rest =>
    match primCtype n with
    | .error e => .error e
    | .ok c =>
      match renderPrimitives rest with
      | .error e => .error e
      | .ok cs => .ok (c :: cs)

/-- Embeds the top-level try/except of `CTypeGen.generate`: an uncaught
exception from the session is routed to the error sink as a single
"Fatal error" message and the call returns a failure indicator. -/
def generateCatch {α : Type} (run : Except String α) (sink : List String) :
    Option α × List String :=
  match run with
  | .ok a => (some a, sink)
  | .error e => (none, sink ++ ["Fatal error: " ++ e])

/-- Embeds `EnumType.intType`: the integer base spelling is chosen by the
definition entry's byte size, in the source's test order 4, 8, 2, 1; any
other size raises. -/
def enumIntType (size : Nat) : Except String String :=
  if size = 4 then .ok ("c_uint32")
  else if size = 8 then .ok ("c_uint64")
  else if size = 2 then .ok ("c_uint16")
  else if size = 1 then .ok ("c_byte")
  else .error ("don't know what type to use for " ++ toString size ++ " byte enum")

/-! ## Debug-info entries and `dieToType` (src/CTypeGen.py)

`DIE` models a debug-info entry as `TypeResolver` consumes it: kind tag,
optional local name, fully scoped name, the `DW_AT_declaration` flag, and the
stable offset used as identity. -/

def DW_TAG_class_type : Nat := 2
def DW_TAG_enumeration_type : Nat := 4
def DW_TAG_compile_unit : Nat := 17
def DW_TAG_structure_type : Nat := 19
def DW_TAG_typedef : Nat := 22
def DW_TAG_union_type : Nat := 23
def DW_TAG_base_type : Nat := 36
def DW_TAG_subprogram : Nat := 46
def DW_TAG_variable : Nat := 52
def DW_TAG_namespace : Nat := 57
def DW_TAG_partial_unit : Nat := 60

/-- `TypeResolver.typeDieTags`: the named type kinds definitions are
generated for. -/
def typeDieTags : List Nat :=
  [DW_TAG_structure_type, DW_TAG_class_type, DW_TAG_union_type,
   DW_TAG_enumeration_type, DW_TAG_typedef, DW_TAG_base_type]

structure DIE where
  tag : Nat
  name : Option String
  fullname : List String
  declaration : Bool
  offset : Nat
deriving DecidableEq

/-- `TypeResolver.dieKey`: identity key of an entry, `(tag, fullname)`. -/
abbrev DieKey := Nat × List String

def dieKey (d : DIE) : DieKey := (d.tag, d.fullname)

/-- The memoization state of one `TypeResolver` session.  Type Node instances
are identified by the `Nat` at which they were created: `counter` is the next
fresh instance, `typesByDieKey` the session memo table, and `existingTypes`
the ordered `definedTypes` tables of previously generated modules. -/
structure TState where
  typesByDieKey : List (DieKey × Nat)
  existingTypes : List (List (DieKey × Nat))
  counter : Nat
deriving DecidableEq

/-- Lookup of a key across the previously supplied external type tables, in
their given order (the `for existingSet in self.existingTypes` loop). -/
def findExisting : List (List (DieKey × Nat)) → DieKey → Option Nat
  | [], _ => none
  | s :: rest, k =>
    match lookupA s k with
    | some t => some t
    | none => findExisting rest k

/-- Embeds `TypeResolver.dieToType`: `None` yields a fresh `VoidType` (never
memoized); otherwise the session memo is consulted, then every external table
in order, and only on a complete miss is a fresh Type Node created and
memoized under the key. -/
def dieToType (st : TState) (d : Option DIE) : Nat × TState :=
  match d with
  | none => (st.counter, { st with counter := st.counter + 1 })
  | some die =>
    match lookupA st.typesByDieKey (dieKey die) with
    | some t => (t, st)
    | none =>
      match findExisting st.existingTypes (dieKey die) with
      | some t => (t, st)
      | none =>
        (st.counter,
          { st with
            typesByDieKey := st.typesByDieKey ++ [(dieKey die, st.counter)],
            counter := st.counter + 1 })

/-- A sequence of further `dieToType` calls within the same session. -/
def runDies (st : TState) (ds : List (Option DIE)) : TState :=
  ds.foldl (fun s d => (dieToType s d).2) st

/-- The lookup chain of `dieToType` before any creation happens: session memo
first, then the external tables in order. -/
def chainLookup (st : TState) (k : DieKey) : Option Nat :=
  match lookupA st.typesByDieKey k with
  | some t => some t
  | none => findExisting st.existingTypes k

/-! ## Declare/define idempotence machinery (src/CTypeGen.py)

`TypeResolver.declareType` and `TypeResolver.defineType` are idempotent
wrappers around the per-variant `Type.declare` / `Type.define` bodies.  The
bodies write this node's own output section and recursively invoke the
resolver wrappers on other nodes; they are modelled as scripts of recursive
wrapper invocations attached to each node.  Entering a body appends one
output event `(phase, key)` standing for that node's whole output section
being written to the stream. -/

inductive EmitAct where
  | decl (k : Option Nat)
  | defn (k : Option Nat)

/-- One Type Node as the emission wrappers see it: `sameResolver` models
`typ.resolver == self`, `dieNone` models `typ.die is None`, and the two
scripts model the recursive calls made by `typ.declare` / `typ.define`. -/
structure EmitNode where
  sameResolver : Bool
  dieNone : Bool
  declScript : List EmitAct
  defScript : List EmitAct

/-- Emission-session state: `declaredTypes`, `definedTypes` and the stream of
per-node output sections. -/
structure EmitSt where
  declared : List Nat
  defined : List Nat
  output : List (Bool × Nat)

mutual
/-- Embeds `TypeResolver.declareType`: skip if the key is already in
`declaredTypes` or the node belongs to another resolver; otherwise record the
key first and then run the node's declare body.  `fuel` bounds recursion
depth (cyclic type graphs are cut by the guards at runtime). -/
def emDeclare (g : Nat → EmitNode) : Nat → Nat → EmitSt → EmitSt
  | 0, _, s => s
  | fuel + 1, k, s =>
    if k ∈ s.declared then s
    else if (g k).sameResolver = false then s
    else
      emActs g fuel ((g k).declScript)
        { s with declared := k :: s.declared, output := s.output ++ [(false, k)] }
/-- Embeds `TypeResolver.defineType`: skip for a void node or a node of
another resolver; otherwise record the key first and run the define body. -/
def emDefine (g : Nat → EmitNode) : Nat → Nat → EmitSt → EmitSt
  | 0, _, s => s
  | fuel + 1, k, s =>
    if (g k).dieNone then s
    else if (g k).sameResolver = false then s
    else if k ∈ s.defined then s
    else
      emActs g fuel ((g k).defScript)
        { s with defined := k :: s.defined, output := s.output ++ [(true, k)] }
/-- Runs a declare/define body: each action is a recursive wrapper
invocation; `decl none` models `declareType(None, out)`. -/
def emActs (g : Nat → EmitNode) : Nat → List EmitAct → EmitSt → EmitSt
  | 0, _, s => s
  | _ + 1, [], s => s
  | fuel + 1, .decl none :: rest, s => emActs g fuel rest s
  | fuel + 1, .decl (some k) :: rest, s => emActs g fuel rest (emDeclare g fuel k s)
  | fuel + 1, .defn none :: rest, s => emActs g fuel rest s
  | fuel + 1, .defn (some k) :: rest, s => emActs g fuel rest (emDefine g fuel k s)
end

/-- A sequence of top-level `declareType` / `defineType` invocations within
one emission session (`true` selects define). -/
def emTop (g : Nat → EmitNode) (fuel : Nat) : List (Bool × Nat) → EmitSt → EmitSt
  | [], s => s
  | (isDef, k) :: rest, s =>
    emTop g fuel rest (if isDef then emDefine g fuel k s else emDeclare g fuel k s)

def emInit : EmitSt := ⟨[], [], []⟩

/-! ## Aggregate definition output (src/CTypeGen.py)

`SMember` models one aggregate member as `StructType.define` reads it:
emitted name, `DW_AT_data_member_location`, the hint-applied ctype override,
`DW_AT_bit_size` and the unaligned-pointer exemption flag.  `Stmt` is the
shape of the statements `MemberType.define` / `StructType.define` write
directly for the aggregate itself (the recursive declare/define calls emit
other nodes' sections and are covered by the emission model above). -/

structure SMember where
  mname : String
  location : Nat
  ctypeOverride : Option String
  bitSize : Option Nat
  ctypeStr : String
  allowUnalignedPtr : Bool
deriving DecidableEq

inductive Stmt where
  | nativeSize (n : Nat)
  | haveDefinition
  | allowUnaligned (names : List String)
  | fieldsRow (nm : String) (ctype : String) (bits : Option Nat)
  | offsetsTable (entries : List (Option Nat))
deriving DecidableEq

/-- `Member.bit_size`: suppressed when the member's ctype is overridden. -/
def memberRowBits (m : SMember) : Option Nat :=
  if m.ctypeOverride.isSome then none else m.bitSize

/-- `Member.ctype`: the override when present, else the member type's
spelling. -/
def memberCtype (m : SMember) : String := m.ctypeOverride.getD m.ctypeStr

/-- The `allow_unaligned` line of `MemberType.define`, written only when
some member carries the exemption flag. -/
def allowUnalignedStmt (members : List SMember) : List Stmt :=
  if (members.filter (fun m => m.allowUnalignedPtr)).map (fun m => m.mname) = [] then []
  else [Stmt.allowUnaligned
    ((members.filter (fun m => m.allowUnalignedPtr)).map (fun m => m.mname))]

/-- The statements `MemberType.define` writes for the aggregate itself:
`native_size`, `have_definition`, the optional `allow_unaligned` list, and
the `_fields_` rows. -/
def memberTypeDefineStmts (size : Nat) (members : List SMember) : List Stmt :=
  [Stmt.nativeSize size, Stmt.haveDefinition] ++ allowUnalignedStmt members ++
  members.map (fun m => Stmt.fieldsRow m.mname (memberCtype m) (memberRowBits m))

/-- The offsets loop of `StructType.define`: an entry is recorded only when
the member's `DW_AT_data_member_location` differs from `lastOffset` (which
starts at -1 and is updated only on recorded entries) and the member carries
no ctype override. -/
def structOffsetsAux (last : Int) : List SMember → List (Option Nat)
  | [] => []
  | m :: rest =>
    if Int.ofNat m.location ≠ last ∧ m.ctypeOverride = none then
      some m.location :: structOffsetsAux (Int.ofNat m.location) rest
    else
      none :: structOffsetsAux last rest

def structOffsets (members : List SMember) : List (Option Nat) :=
  structOffsetsAux (-1) members

/-- `StructType.define`: the inherited `MemberType.define` output followed by
the offsets side-table. -/
def structDefineStmts (size : Nat) (members : List SMember) : List Stmt :=
  memberTypeDefineStmts size members ++ [Stmt.offsetsTable (structOffsets members)]

/-- `UnionType` does not override `define`, so a union emits exactly the
inherited `MemberType.define` output. -/
def unionDefineStmts (size : Nat) (members : List SMember) : List Stmt :=
  memberTypeDefineStmts size members

def isOffsetsTable : Stmt → Bool
  | .offsetsTable _ => true
  | _ => false

/-! ## Namespace index (src/CTypeGen.py, class Namespace)

`NS` is the namespace tree: the three resolution-slot maps, the child
namespaces, and `unresolvedCount`.  A slot value of `none` is an unresolved
slot (for types, `spec.type is None`; for variables and functions, a `None`
dictionary value); `some v` is a filled slot (`v` a die offset or Type Node
id).  The Python parent pointer is replaced by path-based recursion from the
root: `incUnresolved` / `decUnresolved` become the propagation flags threaded
back up the recursion. -/

inductive NS where
  | mk (types : List (String × Option Nat))
       (vars : List (String × Option Nat))
       (funcs : List (String × Option Nat))
       (subs : List (String × NS))
       (count : Nat)

def NS.types : NS → List (String × Option Nat) | .mk t _ _ _ _ => t
def NS.vars : NS → List (String × Option Nat) | .mk _ v _ _ _ => v
def NS.funcs : NS → List (String × Option Nat) | .mk _ _ f _ _ => f
def NS.subs : NS → List (String × NS) | .mk _ _ _ s _ => s
def NS.count : NS → Nat | .mk _ _ _ _ c => c

def emptyNS : NS := NS.mk [] [] [] [] 0

/-- Which of the three maps an insertion or resolution targets (the
`accessor` argument of `Namespace.addToSet`). -/
inductive SKind | ty | var | fn
deriving DecidableEq

def getMap (k : SKind) (ns : NS) : List (String × Option Nat) :=
  match k with
  | .ty => ns.types
  | .var => ns.vars
  | .fn => ns.funcs

def setMap (k : SKind) (ns : NS) (m : List (String × Option Nat)) : NS :=
  match ns with
  | .mk ts vs fs subs cnt =>
    match k with
    | .ty => .mk m vs fs subs cnt
    | .var => .mk ts m fs subs cnt
    | .fn => .mk ts vs m subs cnt

def setCount (ns : NS) (c : Nat) : NS :=
  match ns with
  | .mk ts vs fs subs _ => .mk ts vs fs subs c

def setSubs (ns : NS) (subs : List (String × NS)) : NS :=
  match ns with
  | .mk ts vs fs _ cnt => .mk ts vs fs subs cnt

/-- Embeds `Namespace.addToSet` together with `Namespace.incUnresolved`.
At the leaf, a duplicate name is reported (third component counts errorfunc
calls) and nothing changes; otherwise the slot is inserted unresolved and the
node's count incremented.  `incUnresolved` propagates to the parent only when
the node's count was 0, which the returned flag carries up the recursion. -/
def addToSet (k : SKind) : NS → List String → NS × Bool × Nat
  | ns, [] => (ns, false, 0)
  | ns, [n] =>
    if (lookupA (getMap k ns) n).isSome then (ns, false, 1)
    else
      let ns1 := setMap k ns (setA (getMap k ns) n none)
      (setCount ns1 (ns.count + 1), ns.count == 0, 0)
  | ns, n :: n2 :: rest =>
    let sub := (lookupA ns.subs n).getD emptyNS
    let res := addToSet k sub (n2 :: rest)
    let ns1 := setSubs ns (setA ns.subs n res.1)
    if res.2.1 then (setCount ns1 (ns.count + 1), ns.count == 0, res.2.2)
    else (ns1, false, res.2.2)

/-- `Namespace.addType` (the scoped name already split on "::"). -/
def addType (ns : NS) (path : List String) : NS × Bool × Nat := addToSet .ty ns path

/-- `Namespace.addVar`. -/
def addVar (ns : NS) (path : List String) : NS × Bool × Nat := addToSet .var ns path

/-- `Namespace.addFunc`. -/
def addFunc (ns : NS) (path : List String) : NS × Bool × Nat := addToSet .fn ns path

/-- Resolution of a slot during traversal: the slot-filling assignments of
`TypeResolver.examineDIE` followed by `Namespace.decUnresolved`.  At the node
reached by `path`, if `n` is an unresolved slot of the selected map it is
filled with `v` and the count decremented; `decUnresolved` propagates to the
parent exactly when the count reaches 0, carried by the returned flag. -/
def resolveAt (k : SKind) (v : Nat) : NS → List String → String → NS × Bool
  | ns, [], n =>
    match lookupA (getMap k ns) n with
    | some none =>
      let ns1 := setMap k ns (setA (getMap k ns) n (some v))
      (setCount ns1 (ns.count - 1), ns.count - 1 == 0)
    | _ => (ns, false)
  | ns, p :: rest, n =>
    match lookupA ns.subs p with
    | none => (ns, false)
    | some sub =>
      let res := resolveAt k v sub rest n
      let ns1 := setSubs ns (setA ns.subs p res.1)
      if res.2 then (setCount ns1 (ns.count - 1), ns.count - 1 == 0)
      else (ns1, false)

/-- Navigation from the root to the namespace node a context path denotes. -/
def getNS : NS → List String → Option NS
  | ns, [] => some ns
  | ns, p :: rest =>
    match lookupA ns.subs p with
    | none => none
    | some sub => getNS sub rest

/-- Unresolved slots in a node's own three maps. -/
def ownUnresolved : NS → Nat
  | .mk ts vs fs _ _ =>
    countB (fun v => v.isNone) ts + countB (fun v => v.isNone) vs +
      countB (fun v => v.isNone) fs

/-- Number of children whose pending-count is nonzero. -/
def posCount (subs : List (String × NS)) : Nat :=
  countB (fun s : NS => s.count != 0) subs

/-- Sum of the children's pending-counts (the quantity the specification's
invariant is stated with). -/
def sumChildCounts (ns : NS) : Nat := (ns.subs.map (fun p => p.2.count)).sum

mutual
/-- The pending-count invariant the code actually maintains: at every node,
`unresolvedCount` equals the node's own unresolved slots plus the number of
children with nonzero pending-count. -/
def invB : NS → Bool
  | .mk ts vs fs subs cnt =>
    (cnt == ownUnresolved (.mk ts vs fs subs cnt) + posCount subs) && invList subs
def invList : List (String × NS) → Bool
  | [] => true
  | (_, s) :: rest => invB s && invList rest
end

/-! ## Traversal (src/CTypeGen.py, TypeResolver.examineDIE) -/

/-- Full resolver state during traversal: the namespace tree rooted at
`rootNamespace` and the type memoization state. -/
structure RSt where
  root : NS
  ts : TState

/-- The guard of the type branch of `examineDIE`:
`name in namespace.types and namespace.types[name].type is None`. -/
def guardTy (root : NS) (path : List String) (n : String) : Bool :=
  match getNS root path with
  | some t => decide (lookupA t.types n = some none)
  | none => false

/-- `name in namespace.subspaces` at the current context node. -/
def subspaceExists (root : NS) (path : List String) (n : String) : Bool :=
  match getNS root path with
  | some t => (lookupA t.subs n).isSome
  | none => false

/-- Embeds `TypeResolver.examineDIE`.  Compile/partial units pass through;
nameless entries stop descent; a variable entry resolves its slot BEFORE the
declaration-only test; declaration-only entries are then skipped; subprogram
and type entries resolve their slots; namespace/struct/class entries whose
name is a known sub-namespace are descended into. -/
def examineDIE (rst : RSt) (path : List String) (die : DIE) :
    RSt × Option (List String) :=
  if die.tag = DW_TAG_compile_unit ∨ die.tag = DW_TAG_partial_unit then
    (rst, some path)
  else
    match die.name with
    | none => (rst, none)
    | some n =>
      if die.tag = DW_TAG_variable then
        ({ rst with root := (resolveAt .var die.offset rst.root path n).1 }, none)
      else if die.declaration then (rst, none)
      else if die.tag = DW_TAG_subprogram then
        ({ rst with root := (resolveAt .fn die.offset rst.root path n).1 }, none)
      else
        let rst1 :=
          if die.tag ∈ typeDieTags ∧ guardTy rst.root path n = true then
            let tv := dieToType rst.ts (some die)
            { root := (resolveAt .ty tv.1 rst.root path n).1, ts := tv.2 }
          else rst
        if (die.tag = DW_TAG_namespace ∨ die.tag = DW_TAG_structure_type ∨
            die.tag = DW_TAG_class_type) ∧ subspaceExists rst1.root path n = true
        then (rst1, some (path ++ [n]))
        else (rst1, none)

/-! ## Pruned enumeration (src/CTypeGen.py, TypeResolver.enumerateDIEs)

`DTree` is the debug-info entry tree; `enumerateDIEs` is generic in the
resolver state `σ`, the context type `Ctx` and the visitor `f`, exactly as
the source function is generic in `func` and `ctx`.  `rc` reads
`self.rootNamespace.unresolvedCount` from the state.  The visit log records,
for every entry `f` was applied to, the entry id and the root count right
after that application; the Bool result is `true` when the walk ended by the
`StopIteration` early exit. -/

inductive DTree where
  | node (id : Nat) (children : List DTree)

mutual
def enumerateDIEs {σ Ctx : Type} (rc : σ → Nat)
    (f : σ → DTree → Ctx → σ × Option Ctx) :
    DTree → Ctx → σ → σ × List (Nat × Nat) × Bool
  | .node i children, ctx, s =>
    let fr := f s (.node i children) ctx
    if rc fr.1 = 0 then (fr.1, [(i, rc fr.1)], true)
    else
      match fr.2 with
      | none => (fr.1, [(i, rc fr.1)], false)
      | some c =>
        let rest := enumerateList rc f children c fr.1
        (rest.1, (i, rc fr.1) :: rest.2.1, rest.2.2)
def enumerateList {σ Ctx : Type} (rc : σ → Nat)
    (f : σ → DTree → Ctx → σ × Option Ctx) :
    List DTree → Ctx → σ → σ × List (Nat × Nat) × Bool
  | [], _, s => (s, [], false)
  | t :: ts, c, s =>
    let r1 := enumerateDIEs rc f t c s
    if r1.2.2 then r1
    else
      let r2 := enumerateList rc f ts c r1.1
      (r2.1, r1.2.1 ++ r2.2.1, r2.2.2)
end

/-- The pruning property of one enumeration result: if the walk did not stop
early, no visited entry left the root count at zero; if it stopped early, the
count-zero entry is the last visit and every earlier visit left a nonzero
count. -/
def enumOk {σ : Type} (r : σ × List (Nat × Nat) × Bool) : Prop :=
  (r.2.2 = false → ∀ x ∈ r.2.1, x.2 ≠ 0) ∧
  (r.2.2 = true → ∃ pre lastv, r.2.1 = pre ++ [lastv] ∧ lastv.2 = 0 ∧
    ∀ x ∈ pre, x.2 ≠ 0)

/-! ### Concrete instances used by witnesses and counterexamples -/

/-- A structure entry used to exercise `dieToType`. -/
def c3die : DIE :=
  { tag := DW_TAG_structure_type,
    name := some ("S"),
    fullname := ["S"],
    declaration := false,
    offset := 7 }

/-- A session state with one prior-session table already holding a type. -/
def c3st : TState :=
  { typesByDieKey := [],
    existingTypes := [[((DW_TAG_structure_type, ["S"]), 99)]],
    counter := 5 }

/-- Two members of a bit-field run: both report storage offset 0. -/
def c6m0 : SMember := ⟨("a"), 0, none, some 3, ("c_int"), false⟩

def c6m1 : SMember := ⟨("b"), 0, none, some 5, ("c_int"), false⟩

/-- Root namespace after requesting the variable A::x (one insertion). -/
def c1ns1 : NS := (addVar emptyNS [("A"), ("x")]).1

/-- Root namespace after additionally requesting A::y (second insertion in
the same child namespace). -/
def c1ns2 : NS := (addVar c1ns1 [("A"), ("y")]).1

/-- Root namespace after requesting the top-level variable v. -/
def c7root : NS := (addVar emptyNS [("v")]).1

def c7rst : RSt := ⟨c7root, ⟨[], [], 0⟩⟩

/-- A declaration-only variable entry named v. -/
def c7die : DIE :=
  { tag := DW_TAG_variable,
    name := some ("v"),
    fullname := [("v")],
    declaration := true,
    offset := 42 }

/-- Root namespace after requesting the function f, with its resolver
state. -/
def c7rootF : NS := (addFunc emptyNS [("f")]).1

def c7rstF : RSt := ⟨c7rootF, ⟨[], [], 0⟩⟩

/-- A declaration-only subprogram entry named f. -/
def c7die1 : DIE :=
  { tag := DW_TAG_subprogram,
    name := some ("f"),
    fullname := [("f")],
    declaration := true,
    offset := 9 }

/-- The later full definition of f. -/
def c7die2 : DIE :=
  { tag := DW_TAG_subprogram,
    name := some ("f"),
    fullname := [("f")],
    declaration := false,
    offset := 10 }

/-- The debug-info entries behind a two-unit synthetic tree: entry 0 defines
the requested variable a, entry 1 an unrelated variable b. -/
def c2die (i : Nat) : DIE :=
  if i = 0 then ⟨DW_TAG_variable, some ("a"), [("a")], false, 5⟩
  else ⟨DW_TAG_variable, some ("b"), [("b")], false, 6⟩

/-- Root namespace requesting only the variable a, with its resolver
state. -/
def c2root : NS := (addVar emptyNS [("a")]).1

def c2rst : RSt := ⟨c2root, ⟨[], [], 0⟩⟩

/-- The traversal visitor (`func` in `enumerateDIEs`) instantiated with the
real `examineDIE` over the entry table. -/
def c2step (s : RSt) (t : DTree) (c : List String) : RSt × Option (List String) :=
  match t with
  | .node i _ => examineDIE s c (c2die i)

/-! ## Theorems -/

/-- C5: for every generated class carrying a recorded expected size (the
`have_definition` marker written together with `native_size`), `checkSize`
raises exactly when the runtime-computed size differs from the expected size
and it is not the tolerated empty-class case (computed 0 against expected 1);
classes without the marker are never size-checked. -/
theorem c5_checkSize_raises_iff (cls : CheckedClass) :
    isErr (checkSize cls) = true ↔
      cls.have_definition = true ∧ cls.sizeofRuntime ≠ cls.native_size ∧
        ¬(cls.sizeofRuntime = 0 ∧ cls.native_size = 1) := by
  unfold checkSize
  split_ifs with h1 h2 h3 <;> simp_all [isErr]

/-- C9 counterexample: the claim maps every size in 1, 2, 4, 8 to the
unsigned-integer ctype of matching width, but `EnumType.intType` returns
`c_byte` for size 1, which is ctypes' signed byte — the program's own
primitive table spells the unsigned 1-byte type `c_ubyte`. -/
theorem c9_enum_size1_counterexample :
    enumIntType 1 = .ok ("c_byte") ∧
    lookupA primBaseTypes ("unsigned char") = some ("c_ubyte") ∧
    ("c_byte" : String) ≠ "c_ubyte" ∧ ("c_byte" : String) ≠ "c_uint8" := by
  refine ⟨rfl, by decide, by decide, by decide⟩

/-- C9 amended: the enum integer base spelling is chosen by the definition's
byte size, with 2, 4 and 8 bytes mapping to the unsigned ctypes `c_uint16`,
`c_uint32`, `c_uint64`, but 1 byte mapping to the signed `c_byte`; any other
byte size raises a fatal exception. -/
theorem c9_enum_int_type (s : Nat) :
    enumIntType 4 = .ok ("c_uint32") ∧ enumIntType 8 = .ok ("c_uint64") ∧
    enumIntType 2 = .ok ("c_uint16") ∧ enumIntType 1 = .ok ("c_byte") ∧
    (s ≠ 1 → s ≠ 2 → s ≠ 4 → s ≠ 8 → isErr (enumIntType s) = true) := by
  refine ⟨rfl, rfl, rfl, rfl, ?_⟩
  intro h1 h2 h4 h8
  simp [enumIntType, h1, h2, h4, h8, isErr]

/-- C9 witness: byte size 3 is rejected. -/
theorem c9_enum_int_type_witness : isErr (enumIntType 3) = true :=
  (c9_enum_int_type 3).2.2.2.2 (by decide) (by decide) (by decide) (by decide)

/-- C8 counterexample: the claim says an unmapped primitive name is reported
to the sink and generation continues to report further problems; in the code
`PrimitiveType.ctype` raises, the top-level catch in `generate` turns it into
a single fatal sink message, and the second unmapped name is never reported. -/
theorem c8_unmapped_primitive_counterexample :
    primCtype ("uint128_t") =
      .error ("no python ctype for primitive C type uint128_t") ∧
    generateCatch (renderPrimitives [("uint128_t"), ("uint256_t")]) [] =
      (none, ["Fatal error: no python ctype for primitive C type uint128_t"]) ∧
    (generateCatch (renderPrimitives [("uint128_t"), ("uint256_t")]) []).2.length
      = 1 := by
  refine ⟨rfl, rfl, rfl⟩

/-- C8 amended: a native base-type name with no entry in the primitive table
makes `PrimitiveType.ctype` raise a fatal exception; the exception aborts the
rest of the generation pass, and the top-level `generate` catch sends a
single "Fatal error" message to the error sink and returns failure instead of
continuing. -/
theorem c8_unmapped_primitive_fatal (nm : String) (rest : List String)
    (sink : List String) (h : lookupA primBaseTypes nm = none) :
    primCtype nm = .error ("no python ctype for primitive C type " ++ nm) ∧
    renderPrimitives (nm :: rest) =
      .error ("no python ctype for primitive C type " ++ nm) ∧
    generateCatch (renderPrimitives (nm :: rest)) sink =
      (none, sink ++
        ["Fatal error: " ++ ("no python ctype for primitive C type " ++ nm)]) := by
  have hp : primCtype nm = .error ("no python ctype for primitive C type " ++ nm) := by
    unfold primCtype
    rw [h]
  refine ⟨hp, ?_, ?_⟩ <;> simp [renderPrimitives, hp, generateCatch]

/-- C8 witness: a concrete unmapped name aborts the run with one fatal
message. -/
theorem c8_unmapped_primitive_fatal_witness :
    primCtype ("int128") = .error ("no python ctype for primitive C type " ++ "int128") ∧
    renderPrimitives (("int128") :: []) =
      .error ("no python ctype for primitive C type " ++ "int128") ∧
    generateCatch (renderPrimitives (("int128") :: [])) [] =
      (none, [] ++
        ["Fatal error: " ++ ("no python ctype for primitive C type " ++ "int128")]) :=
  c8_unmapped_primitive_fatal ("int128") [] [] (by decide)

/-- C10: `checkUnalignedPtrs` raises exactly when some field is misaligned,
pointer-bearing and not in the exemption list; when it does not raise, the
warned fields are exactly the misaligned pointer-bearing exempted ones — in
particular a misaligned field without pointers produces neither a warning nor
an error.  The positivity hypothesis records the external `ctypes.alignment`
contract (a zero alignment would raise `ZeroDivisionError` in Python). -/
theorem c10_unaligned_ptr_check (allowed : List String) (fields : List CField)
    (hpos : ∀ f ∈ fields, 0 < f.ftype.alignmentOf) :
    (isErr (checkUnalignedPtrs allowed fields) = true ↔
      ∃ f ∈ fields, badField allowed f = true) ∧
    (∀ ws, checkUnalignedPtrs allowed fields = .ok ws →
      ws = (fields.filter (warnField allowed)).map CField.fname) := by
  clear hpos
  have main : (isErr (checkUnalignedPtrs allowed fields) = true ↔
      fields.any (badField allowed) = true) ∧
      (∀ ws, checkUnalignedPtrs allowed fields = .ok ws →
        ws = (fields.filter (warnField allowed)).map CField.fname) := by
    induction fields with
    | nil => simp [checkUnalignedPtrs, isErr]
    | cons f rest ih =>
      unfold checkUnalignedPtrs
      by_cases h1 : f.offset % f.ftype.alignmentOf = 0
      · have hb : badField allowed f = false := by simp [badField, h1]
        have hw : warnField allowed f = false := by simp [warnField, h1]
        simpa [h1, List.any_cons, hb, List.filter_cons, hw] using ih
      · by_cases h2 : hasPointers f.ftype = false
        · have hb : badField allowed f = false := by simp [badField, h2]
          have hw : warnField allowed f = false := by simp [warnField, h2]
          simpa [h1, h2, List.any_cons, hb, List.filter_cons, hw] using ih
        · simp only [Bool.not_eq_false] at h2
          by_cases h3 : f.fname ∈ allowed
          · have hb : badField allowed f = false := by
              simp [badField, List.elem_iff, h3]
            have hw : warnField allowed f = true := by
              simp [warnField, List.elem_iff, h1, h2, h3]
            simp only [if_neg h1, if_neg (by simp [h2] : ¬ hasPointers f.ftype = false),
              if_pos h3]
            rcases hr : checkUnalignedPtrs allowed rest with e | ws2 <;>
              rw [hr] at ih <;> simp only [hr]
            · constructor
              · simp only [isErr, List.any_cons, hb, Bool.false_or] at ih ⊢
                exact ih.1
              · intro ws hws
                exact absurd hws (by simp)
            · constructor
              · simp only [isErr, List.any_cons, hb, Bool.false_or] at ih ⊢
                exact ih.1
              · intro ws hws
                simp only [Except.ok.injEq] at hws
                subst hws
                simp [List.filter_cons, hw, ih.2 ws2 rfl]
          · have hb : badField allowed f = true := by
              simp [badField, List.elem_iff, h1, h2, h3]
            simp only [if_neg h1, if_neg (by simp [h2] : ¬ hasPointers f.ftype = false),
              if_neg h3]
            constructor
            · simp [isErr, List.any_cons, hb]
            · intro ws hws
              exact absurd hws (by simp)
  exact ⟨by rw [main.1, List.any_eq_true], main.2⟩

/-- C10 witness: a misaligned pointer field with no exemption is fatal. -/
theorem c10_unaligned_ptr_check_witness :
    isErr (checkUnalignedPtrs [] [⟨("p"), CTy.ptr 8, 4⟩]) = true :=
  (c10_unaligned_ptr_check [] [⟨("p"), CTy.ptr 8, 4⟩]
    (by intro f hf; simp only [List.mem_singleton] at hf; subst hf; decide)).1.mpr
    ⟨⟨("p"), CTy.ptr 8, 4⟩, by simp, by simp [badField, hasPointers, CTy.alignmentOf]⟩

/-! ### dieToType memoization lemmas -/

theorem lookupA_append_some {κ α : Type} [DecidableEq κ] (l l2 : List (κ × α))
    (k : κ) (t : α) (h : lookupA l k = some t) : lookupA (l ++ l2) k = some t := by
  induction l with
  | nil => simp [lookupA] at h
  | cons p rest ih =>
    obtain ⟨pk, pv⟩ := p
    rw [List.cons_append]
    simp only [lookupA] at h ⊢
    by_cases hk : pk = k
    · simpa [hk] using h
    · simp only [if_neg hk] at h ⊢
      exact ih h

theorem lookupA_append_none {κ α : Type} [DecidableEq κ] (l l2 : List (κ × α))
    (k : κ) (h : lookupA l k = none) : lookupA (l ++ l2) k = lookupA l2 k := by
  induction l with
  | nil => simp [lookupA]
  | cons p rest ih =>
    obtain ⟨pk, pv⟩ := p
    rw [List.cons_append]
    simp only [lookupA] at h ⊢
    by_cases hk : pk = k
    · simp [hk] at h
    · simp only [if_neg hk] at h ⊢
      exact ih h

/-- One further `dieToType` call preserves what the lookup chain answers for
any key it already answers for. -/
theorem chainLookup_step (st : TState) (d : Option DIE) (k : DieKey) (t : Nat)
    (h : chainLookup st k = some t) : chainLookup (dieToType st d).2 k = some t := by
  cases d with
  | none => simpa [dieToType, chainLookup] using h
  | some die =>
    cases hm : lookupA st.typesByDieKey (dieKey die) with
    | some t2 => simpa [dieToType, hm, chainLookup] using h
    | none =>
      cases he : findExisting st.existingTypes (dieKey die) with
      | some t2 => simpa [dieToType, hm, he, chainLookup] using h
      | none =>
        simp only [dieToType, hm, he, chainLookup] at h ⊢
        by_cases hk : k = dieKey die
        · subst hk
          simp [hm, he] at h
        · cases hllk : lookupA st.typesByDieKey k with
          | some t2 =>
            rw [hllk] at h
            rw [lookupA_append_some _ _ _ _ hllk]
            exact h
          | none =>
            rw [hllk] at h
            rw [lookupA_append_none _ _ _ hllk]
            have hsing : lookupA [((dieKey die), st.counter)] k = none := by
              simp only [lookupA]
              rw [if_neg (fun hh => hk hh.symm)]
            rw [hsing]
            exact h

theorem chainLookup_runDies (st : TState) (ds : List (Option DIE)) (k : DieKey)
    (t : Nat) (h : chainLookup st k = some t) :
    chainLookup (runDies st ds) k = some t := by
  induction ds generalizing st with
  | nil => exact h
  | cons d rest ih => exact ih _ (chainLookup_step st d k t h)

theorem dieToType_of_chain (st : TState) (die : DIE) (t : Nat)
    (h : chainLookup st (dieKey die) = some t) :
    (dieToType st (some die)).1 = t := by
  cases hm : lookupA st.typesByDieKey (dieKey die) with
  | some t2 =>
    simp only [chainLookup, hm, Option.some.injEq] at h
    simp [dieToType, hm, h]
  | none =>
    simp only [chainLookup, hm] at h
    simp [dieToType, hm, h]

theorem dieToType_of_chain_none (st : TState) (die : DIE)
    (h : chainLookup st (dieKey die) = none) :
    (dieToType st (some die)).1 = st.counter ∧
      chainLookup (dieToType st (some die)).2 (dieKey die) = some st.counter := by
  cases hm : lookupA st.typesByDieKey (dieKey die) with
  | some t2 => simp [chainLookup, hm] at h
  | none =>
    simp only [chainLookup, hm] at h
    simp only [dieToType, hm, h, chainLookup]
    refine ⟨trivial, ?_⟩
    rw [lookupA_append_none _ _ _ hm]
    simp [lookupA]

/-- C3: within one session, `dieToType` answers with the same Type Node
instance for entries sharing an identity key, stable under any number of
intervening `dieToType` calls; the current session's memo takes precedence;
and a key found only in a prior-session table returns that table's instance
with the session state untouched (no new Type Node is created). -/
theorem c3_dieToType_identity (st : TState) (d d2 : DIE) (ds : List (Option DIE))
    (hk : dieKey d = dieKey d2) :
    ((dieToType (runDies (dieToType st (some d)).2 ds) (some d2)).1 =
      (dieToType st (some d)).1) ∧
    (∀ t, lookupA st.typesByDieKey (dieKey d) = some t →
      (dieToType st (some d)).1 = t) ∧
    (∀ t, lookupA st.typesByDieKey (dieKey d) = none →
      findExisting st.existingTypes (dieKey d) = some t →
      dieToType st (some d) = (t, st)) := by
  refine ⟨?_, ?_, ?_⟩
  · cases hc : chainLookup st (dieKey d) with
    | some t =>
      rw [dieToType_of_chain st d t hc]
      have h1 : chainLookup (dieToType st (some d)).2 (dieKey d) = some t :=
        chainLookup_step st (some d) _ t hc
      have h2 := chainLookup_runDies _ ds _ t h1
      exact dieToType_of_chain _ d2 t (hk ▸ h2)
    | none =>
      obtain ⟨h1, h2⟩ := dieToType_of_chain_none st d hc
      rw [h1]
      have h3 := chainLookup_runDies _ ds _ _ h2
      exact dieToType_of_chain _ d2 _ (hk ▸ h3)
  · intro t ht
    unfold dieToType
    simp [ht]
  · intro t hm he
    unfold dieToType
    simp [hm, he]

/-- C3 witness: a concrete session with a prior-session table. -/
theorem c3_dieToType_identity_witness :
    ((dieToType (runDies (dieToType c3st (some c3die)).2 []) (some c3die)).1 =
      (dieToType c3st (some c3die)).1) ∧
    (∀ t, lookupA c3st.typesByDieKey (dieKey c3die) = some t →
      (dieToType c3st (some c3die)).1 = t) ∧
    (∀ t, lookupA c3st.typesByDieKey (dieKey c3die) = none →
      findExisting c3st.existingTypes (dieKey c3die) = some t →
      dieToType c3st (some c3die) = (t, c3st)) :=
  c3_dieToType_identity c3st c3die c3die [] rfl

/-! ### Emission idempotence lemmas -/

/-- Bookkeeping invariant of the emission wrappers: every node's section
appears at most once per phase in the stream, and a node with a section in
the stream is recorded in the matching completion set. -/
def EmInv (s : EmitSt) : Prop :=
  (∀ k, s.output.count (false, k) ≤ 1) ∧
  (∀ k, (false, k) ∈ s.output → k ∈ s.declared) ∧
  (∀ k, s.output.count (true, k) ≤ 1) ∧
  (∀ k, (true, k) ∈ s.output → k ∈ s.defined)

theorem count_append_single (l : List (Bool × Nat)) (a b : Bool × Nat) :
    (l ++ [a]).count b = l.count b + (if b = a then 1 else 0) := by
  by_cases hb : b = a
  · subst hb
    simp [List.count_append, List.count_singleton]
  · have : b ∉ [a] := by simp [hb]
    simp [List.count_append, hb, List.count_eq_zero.mpr this]

theorem emInv_extend_decl (s : EmitSt) (k : Nat) (h : EmInv s)
    (hk : k ∉ s.declared) :
    EmInv { s with declared := k :: s.declared, output := s.output ++ [(false, k)] } := by
  obtain ⟨c1, m1, c2, m2⟩ := h
  refine ⟨?_, ?_, ?_, ?_⟩
  · intro k2
    rw [count_append_single]
    by_cases hkk : k2 = k
    · subst hkk
      have hnot : ((false, k2)) ∉ s.output := fun hmem => hk (m1 k2 hmem)
      simp [List.count_eq_zero.mpr hnot]
    · have : ¬ (((false, k2) : Bool × Nat) = (false, k)) := by simp [hkk]
      simpa [this] using c1 k2
  · intro k2 hmem
    rcases List.mem_append.mp hmem with hmem | hmem
    · exact List.mem_cons_of_mem _ (m1 k2 hmem)
    · simp only [List.mem_singleton, Prod.mk.injEq] at hmem
      simp [hmem.2]
  · intro k2
    rw [count_append_single]
    have : ¬ (((true, k2) : Bool × Nat) = (false, k)) := by simp
    simpa [this] using c2 k2
  · intro k2 hmem
    rcases List.mem_append.mp hmem with hmem | hmem
    · exact m2 k2 hmem
    · simp at hmem

theorem emInv_extend_defn (s : EmitSt) (k : Nat) (h : EmInv s)
    (hk : k ∉ s.defined) :
    EmInv { s with defined := k :: s.defined, output := s.output ++ [(true, k)] } := by
  obtain ⟨c1, m1, c2, m2⟩ := h
  refine ⟨?_, ?_, ?_, ?_⟩
  · intro k2
    rw [count_append_single]
    have : ¬ (((false, k2) : Bool × Nat) = (true, k)) := by simp
    simpa [this] using c1 k2
  · intro k2 hmem
    rcases List.mem_append.mp hmem with hmem | hmem
    · exact m1 k2 hmem
    · simp at hmem
  · intro k2
    rw [count_append_single]
    by_cases hkk : k2 = k
    · subst hkk
      have hnot : ((true, k2)) ∉ s.output := fun hmem => hk (m2 k2 hmem)
      simp [List.count_eq_zero.mpr hnot]
    · have : ¬ (((true, k2) : Bool × Nat) = (true, k)) := by simp [hkk]
      simpa [this] using c2 k2
  · intro k2 hmem
    rcases List.mem_append.mp hmem with hmem | hmem
    · exact List.mem_cons_of_mem _ (m2 k2 hmem)
    · simp only [List.mem_singleton, Prod.mk.injEq] at hmem
      simp [hmem.2]

/-- The emission wrappers preserve the invariant at every fuel level. -/
theorem emInv_preserved (g : Nat → EmitNode) :
    ∀ fuel : Nat,
      (∀ k s, EmInv s → EmInv (emDeclare g fuel k s)) ∧
      (∀ k s, EmInv s → EmInv (emDefine g fuel k s)) ∧
      (∀ acts s, EmInv s → EmInv (emActs g fuel acts s)) := by
  intro fuel
  induction fuel with
  | zero =>
    refine ⟨?_, ?_, ?_⟩ <;> intro a s h <;>
      simpa [emDeclare, emDefine, emActs] using h
  | succ fuel ih =>
    refine ⟨?_, ?_, ?_⟩
    · intro k s h
      rw [emDeclare]
      by_cases h1 : k ∈ s.declared
      · simpa [h1] using h
      · by_cases h2 : (g k).sameResolver = false
        · simpa [h1, h2] using h
        · simp only [if_neg h1, if_neg h2]
          exact ih.2.2 _ _ (emInv_extend_decl s k h h1)
    · intro k s h
      rw [emDefine]
      by_cases h0 : (g k).dieNone
      · simpa [h0] using h
      · by_cases h2 : (g k).sameResolver = false
        · simpa [h0, h2] using h
        · by_cases h1 : k ∈ s.defined
          · simpa [h0, h2, h1] using h
          · simp only [if_neg h0, if_neg h2, if_neg h1]
            exact ih.2.2 _ _ (emInv_extend_defn s k h h1)
    · intro acts s h
      match acts with
      | [] => simpa [emActs] using h
      | .decl none :: rest => exact ih.2.2 rest s h
      | .decl (some k) :: rest => exact ih.2.2 rest _ (ih.1 k s h)
      | .defn none :: rest => exact ih.2.2 rest s h
      | .defn (some k) :: rest => exact ih.2.2 rest _ (ih.2.1 k s h)

/-- C4: across any sequence of `declareType` / `defineType` invocations in
one emission session, every Type Node's declaration section and definition
section are each written to the stream at most once; repeated invocations on
an already-processed node write nothing. -/
theorem c4_declare_define_once (g : Nat → EmitNode) (fuel : Nat)
    (cmds : List (Bool × Nat)) (k : Nat) :
    ((emTop g fuel cmds emInit).output.count (false, k) ≤ 1) ∧
    ((emTop g fuel cmds emInit).output.count (true, k) ≤ 1) := by
  have hinit : EmInv emInit := by
    refine ⟨?_, ?_, ?_, ?_⟩ <;> intro k2 <;> simp [emInit]
  have hrun : ∀ cs s, EmInv s → EmInv (emTop g fuel cs s) := by
    intro cs
    induction cs with
    | nil =>
      intro s h
      simpa [emTop] using h
    | cons c rest ih =>
      intro s h
      obtain ⟨isDef, kk⟩ := c
      rw [emTop]
      cases isDef
      · simpa using ih _ ((emInv_preserved g fuel).1 kk s h)
      · simpa using ih _ ((emInv_preserved g fuel).2.1 kk s h)
  obtain ⟨cc1, _, cc2, _⟩ := hrun cmds emInit hinit
  exact ⟨cc1 k, cc2 k⟩

/-! ### Aggregate side-table lemmas -/

theorem structOffsetsAux_none_iff (ms : List SMember) :
    ∀ (last : Int) (i : Nat) (m : SMember), ms[i]? = some m →
    ((structOffsetsAux last ms)[i]? = some none ↔
      m.ctypeOverride.isSome = true ∨
      (∃ j, j < i ∧ (structOffsetsAux last ms)[j]? = some (some m.location) ∧
        ∀ l2, j < l2 → l2 < i → (structOffsetsAux last ms)[l2]? = some none) ∨
      ((∀ l2, l2 < i → (structOffsetsAux last ms)[l2]? = some none) ∧
        Int.ofNat m.location = last)) := by
  induction ms with
  | nil =>
    intro last i m hm
    simp at hm
  | cons m0 rest ih =>
    intro last i m hm
    by_cases hc : Int.ofNat m0.location ≠ last ∧ m0.ctypeOverride = none
    · rw [structOffsetsAux, if_pos hc]
      cases i with
      | zero =>
        simp only [List.getElem?_cons_zero, Option.some.injEq] at hm
        subst hm
        simp only [List.getElem?_cons_zero]
        constructor
        · intro habs
          simp at habs
        · rintro (hov | ⟨j, hj, hjv, hbet⟩ | ⟨hall, hlast⟩)
          · rw [hc.2] at hov
            simp at hov
          · omega
          · exact absurd hlast hc.1
      | succ k =>
        simp only [List.getElem?_cons_succ] at hm
        have IH := ih (Int.ofNat m0.location) k m hm
        simp only [List.getElem?_cons_succ]
        rw [IH]
        constructor
        · rintro (hov | ⟨j, hj, hjv, hbet⟩ | ⟨hall, hlast⟩)
          · exact Or.inl hov
          · refine Or.inr (Or.inl ⟨j + 1, by omega, ?_, ?_⟩)
            · simpa only [List.getElem?_cons_succ] using hjv
            · intro l2 hl2a hl2b
              cases l2 with
              | zero => omega
              | succ l3 =>
                simp only [List.getElem?_cons_succ]
                exact hbet l3 (by omega) (by omega)
          · refine Or.inr (Or.inl ⟨0, by omega, ?_, ?_⟩)
            · simp only [List.getElem?_cons_zero, Option.some.injEq]
              exact (Int.ofNat.inj hlast).symm
            · intro l2 h0 hl2
              cases l2 with
              | zero => omega
              | succ l3 =>
                simp only [List.getElem?_cons_succ]
                exact hall l3 (by omega)
        · rintro (hov | ⟨j, hj, hjv, hbet⟩ | ⟨hall, hlast⟩)
          · exact Or.inl hov
          · cases j with
            | zero =>
              simp only [List.getElem?_cons_zero, Option.some.injEq] at hjv
              refine Or.inr (Or.inr ⟨?_, ?_⟩)
              · intro l2 hl2
                have hb := hbet (l2 + 1) (by omega) (by omega)
                simpa only [List.getElem?_cons_succ] using hb
              · rw [hjv]
            | succ j2 =>
              simp only [List.getElem?_cons_succ] at hjv
              refine Or.inr (Or.inl ⟨j2, by omega, hjv, ?_⟩)
              intro l2 hl2a hl2b
              have hb := hbet (l2 + 1) (by omega) (by omega)
              simpa only [List.getElem?_cons_succ] using hb
          · have h0 := hall 0 (by omega)
            simp only [List.getElem?_cons_zero] at h0
            simp at h0
    · rw [structOffsetsAux, if_neg hc]
      push_neg at hc
      cases i with
      | zero =>
        simp only [List.getElem?_cons_zero, Option.some.injEq] at hm
        subst hm
        simp only [List.getElem?_cons_zero]
        constructor
        · intro _
          by_cases hl : Int.ofNat m0.location = last
          · exact Or.inr (Or.inr ⟨by omega, hl⟩)
          · have hov := hc hl
            exact Or.inl (Option.ne_none_iff_isSome.mp hov)
        · intro _
          trivial
      | succ k =>
        simp only [List.getElem?_cons_succ] at hm
        have IH := ih last k m hm
        simp only [List.getElem?_cons_succ]
        rw [IH]
        constructor
        · rintro (hov | ⟨j, hj, hjv, hbet⟩ | ⟨hall, hlast⟩)
          · exact Or.inl hov
          · refine Or.inr (Or.inl ⟨j + 1, by omega, ?_, ?_⟩)
            · simpa only [List.getElem?_cons_succ] using hjv
            · intro l2 hl2a hl2b
              cases l2 with
              | zero => omega
              | succ l3 =>
                simp only [List.getElem?_cons_succ]
                exact hbet l3 (by omega) (by omega)
          · refine Or.inr (Or.inr ⟨?_, hlast⟩)
            intro l2 hl2
            cases l2 with
            | zero => exact List.getElem?_cons_zero
            | succ l3 =>
              simp only [List.getElem?_cons_succ]
              exact hall l3 (by omega)
        · rintro (hov | ⟨j, hj, hjv, hbet⟩ | ⟨hall, hlast⟩)
          · exact Or.inl hov
          · cases j with
            | zero =>
              simp only [List.getElem?_cons_zero] at hjv
              simp at hjv
            | succ j2 =>
              simp only [List.getElem?_cons_succ] at hjv
              refine Or.inr (Or.inl ⟨j2, by omega, hjv, ?_⟩)
              intro l2 hl2a hl2b
              have hb := hbet (l2 + 1) (by omega) (by omega)
              simpa only [List.getElem?_cons_succ] using hb
          · refine Or.inr (Or.inr ⟨?_, hlast⟩)
            intro l2 hl2
            have hb := hall (l2 + 1) (by omega)
            simpa only [List.getElem?_cons_succ] using hb

/-- C6 counterexample: the claim says unions produce the same offsets
side-table as structs, but `UnionType` inherits `MemberType.define`, which
writes no `offsets` statement — only `StructType.define` does. -/
theorem c6_union_offsets_counterexample :
    ((unionDefineStmts 4 [c6m0]).filter isOffsetsTable = []) ∧
    ((structDefineStmts 4 [c6m0]).filter isOffsetsTable =
      [Stmt.offsetsTable [some 0]]) := by
  constructor <;> rfl

/-- C6 amended: a defined struct or class records a side-table with the
expected byte size and one offsets entry per member, where a member's entry
is absent exactly when it carries a ctype override or shares its storage
offset with the nearest previously recorded member; a defined union records
the expected byte size (and field list) through the same inherited machinery
but no offsets side-table. -/
theorem c6_side_table (size : Nat) (ms : List SMember) (i : Nat) (m : SMember)
    (hm : ms[i]? = some m) :
    (Stmt.nativeSize size ∈ structDefineStmts size ms) ∧
    (Stmt.offsetsTable (structOffsets ms) ∈ structDefineStmts size ms) ∧
    (Stmt.nativeSize size ∈ unionDefineStmts size ms) ∧
    ((unionDefineStmts size ms).filter isOffsetsTable = []) ∧
    ((structOffsets ms)[i]? = some none ↔
      m.ctypeOverride.isSome = true ∨
      ∃ j, j < i ∧ (structOffsets ms)[j]? = some (some m.location) ∧
        ∀ l2, j < l2 → l2 < i → (structOffsets ms)[l2]? = some none) := by
  refine ⟨?_, ?_, ?_, ?_, ?_⟩
  · simp [structDefineStmts, memberTypeDefineStmts]
  · simp [structDefineStmts]
  · simp [unionDefineStmts, memberTypeDefineStmts]
  · simp only [unionDefineStmts, memberTypeDefineStmts]
    rw [List.filter_append, List.filter_append]
    have h1 : ([Stmt.nativeSize size, Stmt.haveDefinition]).filter isOffsetsTable
        = [] := rfl
    have h2 : (allowUnalignedStmt ms).filter isOffsetsTable = [] := by
      unfold allowUnalignedStmt
      split
      · rfl
      · rfl
    have h3 : (ms.map (fun mm =>
        Stmt.fieldsRow mm.mname (memberCtype mm) (memberRowBits mm))).filter
          isOffsetsTable = [] := by
      induction ms with
      | nil => rfl
      | cons mm mrest mih =>
        simp only [List.map_cons, List.filter_cons]
        simpa [isOffsetsTable] using mih
    rw [h1, h2, h3]
    rfl
  · have H := structOffsetsAux_none_iff ms (-1) i m hm
    rw [structOffsets, H]
    constructor
    · rintro (hov | hex | ⟨_, habs⟩)
      · exact Or.inl hov
      · exact Or.inr hex
      · rw [Int.ofNat_eq_natCast] at habs
        omega
    · rintro (hov | hex)
      · exact Or.inl hov
      · exact Or.inr (Or.inl hex)

/-- C6 witness: a two-member bit-field run at storage offset 0 — the second
member's offsets entry is suppressed. -/
theorem c6_side_table_witness :
    (Stmt.nativeSize 8 ∈ structDefineStmts 8 [c6m0, c6m1]) ∧
    (Stmt.offsetsTable (structOffsets [c6m0, c6m1]) ∈
      structDefineStmts 8 [c6m0, c6m1]) ∧
    (Stmt.nativeSize 8 ∈ unionDefineStmts 8 [c6m0, c6m1]) ∧
    ((unionDefineStmts 8 [c6m0, c6m1]).filter isOffsetsTable = []) ∧
    ((structOffsets [c6m0, c6m1])[1]? = some none ↔
      c6m1.ctypeOverride.isSome = true ∨
      ∃ j, j < 1 ∧ (structOffsets [c6m0, c6m1])[j]? = some (some c6m1.location) ∧
        ∀ l2, j < l2 → l2 < 1 →
          (structOffsets [c6m0, c6m1])[l2]? = some none) :=
  c6_side_table 8 [c6m0, c6m1] 1 c6m1 rfl

/-! ### Namespace pending-count lemmas -/

theorem lookupA_setA_self {κ α : Type} [DecidableEq κ] (l : List (κ × α)) (k : κ) (v : α) :
    lookupA (setA l k v) k = some v := by
  induction l with
  | nil => simp [setA, lookupA]
  | cons p rest ih =>
    obtain ⟨pk, pv⟩ := p
    simp only [setA]
    by_cases hk : pk = k
    · simp [hk, lookupA]
    · simp [hk, lookupA, ih]

theorem countB_setA_present {κ α : Type} [DecidableEq κ] (p : α → Bool)
    (l : List (κ × α)) (k : κ) (x v : α) (h : lookupA l k = some x) :
    countB p (setA l k v) + (if p x then 1 else 0) =
      countB p l + (if p v then 1 else 0) := by
  induction l with
  | nil => simp [lookupA] at h
  | cons q rest ih =>
    obtain ⟨qk, qv⟩ := q
    simp only [lookupA] at h
    simp only [setA]
    by_cases hk : qk = k
    · simp only [if_pos hk] at h ⊢
      simp only [Option.some.injEq] at h
      subst h
      simp [countB]
      omega
    · simp only [if_neg hk] at h ⊢
      simp only [countB]
      have := ih h
      omega

theorem countB_setA_absent {κ α : Type} [DecidableEq κ] (p : α → Bool)
    (l : List (κ × α)) (k : κ) (v : α) (h : lookupA l k = none) :
    countB p (setA l k v) = countB p l + (if p v then 1 else 0) := by
  induction l with
  | nil => simp [setA, countB]
  | cons q rest ih =>
    obtain ⟨qk, qv⟩ := q
    simp only [lookupA] at h
    simp only [setA]
    by_cases hk : qk = k
    · simp [hk] at h
    · simp only [if_neg hk] at h ⊢
      simp only [countB]
      have := ih h
      omega

theorem countB_pos_of_lookup {κ α : Type} [DecidableEq κ] (p : α → Bool)
    (l : List (κ × α)) (k : κ) (x : α) (h : lookupA l k = some x)
    (hp : p x = true) : 1 ≤ countB p l := by
  induction l with
  | nil => simp [lookupA] at h
  | cons q rest ih =>
    obtain ⟨qk, qv⟩ := q
    simp only [lookupA] at h
    simp only [countB]
    by_cases hk : qk = k
    · simp only [if_pos hk, Option.some.injEq] at h
      subst h
      simp [hp]
    · simp only [if_neg hk] at h
      have := ih h
      omega

theorem setA_absent_eq_append {κ α : Type} [DecidableEq κ] (l : List (κ × α))
    (k : κ) (v : α) (h : lookupA l k = none) : setA l k v = l ++ [(k, v)] := by
  induction l with
  | nil => simp [setA]
  | cons q rest ih =>
    obtain ⟨qk, qv⟩ := q
    simp only [lookupA] at h
    simp only [setA]
    by_cases hk : qk = k
    · simp [hk] at h
    · simp only [if_neg hk] at h ⊢
      simp [ih h]

theorem countB_append {κ α : Type} (p : α → Bool) (l1 l2 : List (κ × α)) :
    countB p (l1 ++ l2) = countB p l1 + countB p l2 := by
  induction l1 with
  | nil => simp [countB]
  | cons q rest ih =>
    obtain ⟨qk, qv⟩ := q
    rw [List.cons_append]
    simp only [countB]
    rw [ih]
    omega

theorem invList_lookup (l : List (String × NS)) (k : String) (x : NS)
    (hl : invList l = true) (h : lookupA l k = some x) : invB x = true := by
  induction l with
  | nil => simp [lookupA] at h
  | cons q rest ih =>
    obtain ⟨qk, qv⟩ := q
    simp only [lookupA] at h
    rw [invList] at hl
    simp only [Bool.and_eq_true] at hl
    by_cases hk : qk = k
    · simp only [if_pos hk, Option.some.injEq] at h
      subst h
      exact hl.1
    · simp only [if_neg hk] at h
      exact ih hl.2 h

theorem invList_setA (l : List (String × NS)) (k : String) (v : NS)
    (hl : invList l = true) (hv : invB v = true) : invList (setA l k v) = true := by
  induction l with
  | nil => simp [setA, invList, hv]
  | cons q rest ih =>
    obtain ⟨qk, qv⟩ := q
    rw [invList] at hl
    simp only [Bool.and_eq_true] at hl
    simp only [setA]
    by_cases hk : qk = k
    · simp only [if_pos hk]
      rw [invList]
      simp [hv, hl.2]
    · simp only [if_neg hk]
      rw [invList]
      simp [hl.1, ih hl.2]

theorem invB_empty : invB emptyNS = true := by
  rw [emptyNS, invB]
  simp [invList, ownUnresolved, posCount, countB]

theorem invB_iff (ns : NS) : invB ns = true ↔
    (ns.count = ownUnresolved ns + posCount ns.subs ∧ invList ns.subs = true) := by
  obtain ⟨ts, vs, fs, subs, cnt⟩ := ns
  rw [invB]
  simp [NS.count, NS.subs, Bool.and_eq_true]

theorem setMap_subs (k : SKind) (ns : NS) (m : List (String × Option Nat)) :
    (setMap k ns m).subs = ns.subs := by
  cases ns
  cases k <;> rfl

theorem setMap_count (k : SKind) (ns : NS) (m : List (String × Option Nat)) :
    (setMap k ns m).count = ns.count := by
  cases ns
  cases k <;> rfl

theorem setCount_count (ns : NS) (c : Nat) : (setCount ns c).count = c := by
  cases ns
  rfl

theorem setCount_subs (ns : NS) (c : Nat) : (setCount ns c).subs = ns.subs := by
  cases ns
  rfl

theorem setSubs_count (ns : NS) (s : List (String × NS)) :
    (setSubs ns s).count = ns.count := by
  cases ns
  rfl

theorem setSubs_subs (ns : NS) (s : List (String × NS)) :
    (setSubs ns s).subs = s := by
  cases ns
  rfl

theorem ownUnresolved_setCount (ns : NS) (c : Nat) :
    ownUnresolved (setCount ns c) = ownUnresolved ns := by
  cases ns
  rfl

theorem ownUnresolved_setSubs (ns : NS) (s : List (String × NS)) :
    ownUnresolved (setSubs ns s) = ownUnresolved ns := by
  cases ns
  rfl

theorem ownUnresolved_setMap_absent (k : SKind) (ns : NS) (n : String)
    (h : lookupA (getMap k ns) n = none) :
    ownUnresolved (setMap k ns (setA (getMap k ns) n none)) = ownUnresolved ns + 1 := by
  obtain ⟨ts, vs, fs, subs, cnt⟩ := ns
  cases k <;>
    (simp only [getMap, setMap, NS.types, NS.vars, NS.funcs, ownUnresolved] at h ⊢
     rw [countB_setA_absent _ _ _ _ h]
     simp only [Option.isNone_none, if_true]
     omega)

theorem ownUnresolved_setMap_resolve (k : SKind) (ns : NS) (n : String) (v : Nat)
    (h : lookupA (getMap k ns) n = some none) :
    ownUnresolved (setMap k ns (setA (getMap k ns) n (some v))) + 1 =
      ownUnresolved ns := by
  obtain ⟨ts, vs, fs, subs, cnt⟩ := ns
  cases k <;>
    (simp only [getMap, setMap, NS.types, NS.vars, NS.funcs, ownUnresolved] at h ⊢
     have hc := countB_setA_present (fun v : Option Nat => v.isNone) _ _ _ (some v) h
     simp only [Option.isNone_none, Option.isNone_some, if_true,
       Bool.false_eq_true, if_false] at hc
     omega)

theorem posCount_setA_present (subs : List (String × NS)) (n : String) (x v : NS)
    (h : lookupA subs n = some x) :
    posCount (setA subs n v) + (if x.count != 0 then 1 else 0) =
      posCount subs + (if v.count != 0 then 1 else 0) :=
  countB_setA_present _ _ _ _ _ h

theorem posCount_setA_absent (subs : List (String × NS)) (n : String) (v : NS)
    (h : lookupA subs n = none) :
    posCount (setA subs n v) = posCount subs + (if v.count != 0 then 1 else 0) :=
  countB_setA_absent _ _ _ _ h

theorem bne_zero_of_eq_zero (a : Nat) (h : a = 0) : (a != 0) = false := by
  subst h
  rfl

theorem bne_zero_of_ne_zero (a : Nat) (h : a ≠ 0) : (a != 0) = true := by
  simp [h]

theorem addToSet_spec (k : SKind) : ∀ (path : List String) (ns : NS),
    invB ns = true →
    invB (addToSet k ns path).1 = true ∧
    ((addToSet k ns path).2.1 = true →
      ns.count = 0 ∧ (addToSet k ns path).1.count = ns.count + 1) ∧
    ((addToSet k ns path).2.1 = false →
      ((addToSet k ns path).1.count = 0 ↔ ns.count = 0)) := by
  intro path
  induction path with
  | nil =>
    intro ns hinv
    simp only [addToSet]
    exact ⟨hinv, by simp, by simp⟩
  | cons n rest ih =>
    intro ns hinv
    match rest with
    | [] =>
      simp only [addToSet]
      by_cases hdup : (lookupA (getMap k ns) n).isSome
      · simp only [if_pos hdup]
        exact ⟨hinv, by simp, by simp⟩
      · simp only [if_neg hdup]
        have hnone : lookupA (getMap k ns) n = none := by
          cases hh : lookupA (getMap k ns) n
          · rfl
          · rw [hh] at hdup
            simp at hdup
        refine ⟨?_, ?_, ?_⟩
        · rw [invB_iff] at hinv ⊢
          rw [setCount_count, setCount_subs, setMap_subs, ownUnresolved_setCount,
            ownUnresolved_setMap_absent k ns n hnone]
          exact ⟨by omega, hinv.2⟩
        · intro hp
          simp only [beq_iff_eq] at hp
          rw [setCount_count]
          exact ⟨hp, rfl⟩
        · intro hp
          simp only [beq_eq_false_iff_ne] at hp
          rw [setCount_count]
          omega
    | n2 :: rest2 =>
      simp only [addToSet]
      have hinv2 := (invB_iff ns).mp hinv
      cases h : lookupA ns.subs n with
      | none =>
        simp only [Option.getD]
        have IH := ih emptyNS invB_empty
        by_cases hflag : (addToSet k emptyNS (n2 :: rest2)).2.1 = true
        · rw [if_pos hflag]
          obtain ⟨hsub0, hsub1⟩ := IH.2.1 hflag
          have hc1 : (addToSet k emptyNS (n2 :: rest2)).1.count ≠ 0 := by omega
          have hposeq : posCount (setA ns.subs n
              (addToSet k emptyNS (n2 :: rest2)).1) = posCount ns.subs + 1 := by
            rw [posCount_setA_absent _ _ _ h]
            simp [hc1]
          refine ⟨?_, ?_, ?_⟩
          · rw [invB_iff, setCount_count, setCount_subs, setSubs_subs,
              ownUnresolved_setCount, ownUnresolved_setSubs, hposeq]
            exact ⟨by omega, invList_setA _ _ _ hinv2.2 IH.1⟩
          · intro hp
            simp only [beq_iff_eq] at hp
            rw [setCount_count]
            exact ⟨hp, rfl⟩
          · intro hp
            simp only [beq_eq_false_iff_ne] at hp
            rw [setCount_count]
            omega
        · rw [if_neg hflag]
          have hflag2 : (addToSet k emptyNS (n2 :: rest2)).2.1 = false := by
            simpa using hflag
          have hiff := IH.2.2 hflag2
          have h0 : (addToSet k emptyNS (n2 :: rest2)).1.count = 0 :=
            hiff.mpr rfl
          have hposeq : posCount (setA ns.subs n
              (addToSet k emptyNS (n2 :: rest2)).1) = posCount ns.subs := by
            rw [posCount_setA_absent _ _ _ h]
            simp [h0]
          refine ⟨?_, by simp, ?_⟩
          · rw [invB_iff, setSubs_count, setSubs_subs, ownUnresolved_setSubs, hposeq]
            exact ⟨by omega, invList_setA _ _ _ hinv2.2 IH.1⟩
          · intro _
            rw [setSubs_count]
      | some sub0 =>
        simp only [Option.getD]
        have IH := ih sub0 (invList_lookup _ _ _ hinv2.2 h)
        by_cases hflag : (addToSet k sub0 (n2 :: rest2)).2.1 = true
        · rw [if_pos hflag]
          obtain ⟨hsub0, hsub1⟩ := IH.2.1 hflag
          have hc1 : (addToSet k sub0 (n2 :: rest2)).1.count ≠ 0 := by omega
          have hp := posCount_setA_present ns.subs n sub0
            (addToSet k sub0 (n2 :: rest2)).1 h
          have hposeq : posCount (setA ns.subs n
              (addToSet k sub0 (n2 :: rest2)).1) = posCount ns.subs + 1 := by
            simp [hsub0, hc1] at hp
            omega
          refine ⟨?_, ?_, ?_⟩
          · rw [invB_iff, setCount_count, setCount_subs, setSubs_subs,
              ownUnresolved_setCount, ownUnresolved_setSubs, hposeq]
            exact ⟨by omega, invList_setA _ _ _ hinv2.2 IH.1⟩
          · intro hp2
            simp only [beq_iff_eq] at hp2
            rw [setCount_count]
            exact ⟨hp2, rfl⟩
          · intro hp2
            simp only [beq_eq_false_iff_ne] at hp2
            rw [setCount_count]
            omega
        · rw [if_neg hflag]
          have hflag2 : (addToSet k sub0 (n2 :: rest2)).2.1 = false := by
            simpa using hflag
          have hiff := IH.2.2 hflag2
          have hp := posCount_setA_present ns.subs n sub0
            (addToSet k sub0 (n2 :: rest2)).1 h
          have hposeq : posCount (setA ns.subs n
              (addToSet k sub0 (n2 :: rest2)).1) = posCount ns.subs := by
            by_cases h0 : sub0.count = 0
            · have h1 := hiff.mpr h0
              simp [h0, h1] at hp
              omega
            · have h1 : (addToSet k sub0 (n2 :: rest2)).1.count ≠ 0 :=
                fun hh => h0 (hiff.mp hh)
              simp [h0, h1] at hp
              omega
          refine ⟨?_, by simp, ?_⟩
          · rw [invB_iff, setSubs_count, setSubs_subs, ownUnresolved_setSubs, hposeq]
            exact ⟨by omega, invList_setA _ _ _ hinv2.2 IH.1⟩
          · intro _
            rw [setSubs_count]

theorem resolveAt_spec (k : SKind) (v : Nat) : ∀ (path : List String) (ns : NS)
    (n : String), invB ns = true →
    invB (resolveAt k v ns path n).1 = true ∧
    ((resolveAt k v ns path n).2 = true →
      ns.count = 1 ∧ (resolveAt k v ns path n).1.count = 0) ∧
    ((resolveAt k v ns path n).2 = false →
      ((resolveAt k v ns path n).1.count = 0 ↔ ns.count = 0)) := by
  intro path
  induction path with
  | nil =>
    intro ns n hinv
    simp only [resolveAt]
    cases hg : lookupA (getMap k ns) n with
    | none =>
      simp only
      exact ⟨hinv, by simp, by simp⟩
    | some slot =>
      cases slot with
      | some w =>
        simp only
        exact ⟨hinv, by simp, by simp⟩
      | none =>
        simp only
        have hinv2 := (invB_iff ns).mp hinv
        have hown : 1 ≤ ownUnresolved ns := by
          obtain ⟨ts, vs, fs, subs, cnt⟩ := ns
          cases k <;>
            (simp only [getMap, NS.types, NS.vars, NS.funcs] at hg
             simp only [ownUnresolved]
             have := countB_pos_of_lookup (fun x : Option Nat => x.isNone) _ _ _ hg rfl
             omega)
        have hcnt : 1 ≤ ns.count := by omega
        refine ⟨?_, ?_, ?_⟩
        · rw [invB_iff, setCount_count, setCount_subs, setMap_subs,
            ownUnresolved_setCount]
          have hres := ownUnresolved_setMap_resolve k ns n v hg
          exact ⟨by omega, hinv2.2⟩
        · intro hp
          simp only [beq_iff_eq] at hp
          rw [setCount_count]
          omega
        · intro hp
          simp only [beq_eq_false_iff_ne] at hp
          rw [setCount_count]
          omega
  | cons p rest ih =>
    intro ns n hinv
    simp only [resolveAt]
    have hinv2 := (invB_iff ns).mp hinv
    cases h : lookupA ns.subs p with
    | none =>
      simp only
      exact ⟨hinv, by simp, by simp⟩
    | some sub0 =>
      simp only
      have IH := ih sub0 n (invList_lookup _ _ _ hinv2.2 h)
      by_cases hflag : (resolveAt k v sub0 rest n).2 = true
      · rw [if_pos hflag]
        obtain ⟨hsub1, hsub0⟩ := IH.2.1 hflag
        have hpossub : (sub0.count != 0) = true := by
          rw [hsub1]
          rfl
        have hpos1 : 1 ≤ posCount ns.subs :=
          countB_pos_of_lookup _ _ _ _ h hpossub
        have hcnt : 1 ≤ ns.count := by omega
        have hp := posCount_setA_present ns.subs p sub0
          (resolveAt k v sub0 rest n).1 h
        have hposeq : posCount (setA ns.subs p (resolveAt k v sub0 rest n).1) + 1 =
            posCount ns.subs := by
          simp [hsub0, hsub1] at hp
          omega
        refine ⟨?_, ?_, ?_⟩
        · rw [invB_iff, setCount_count, setCount_subs, setSubs_subs,
            ownUnresolved_setCount, ownUnresolved_setSubs]
          exact ⟨by omega, invList_setA _ _ _ hinv2.2 IH.1⟩
        · intro hp2
          simp only [beq_iff_eq] at hp2
          rw [setCount_count]
          omega
        · intro hp2
          simp only [beq_eq_false_iff_ne] at hp2
          rw [setCount_count]
          omega
      · rw [if_neg hflag]
        have hflag2 : (resolveAt k v sub0 rest n).2 = false := by
          simpa using hflag
        have hiff := IH.2.2 hflag2
        have hp := posCount_setA_present ns.subs p sub0
          (resolveAt k v sub0 rest n).1 h
        have hposeq : posCount (setA ns.subs p (resolveAt k v sub0 rest n).1) =
            posCount ns.subs := by
          by_cases h0 : sub0.count = 0
          · have h1 := hiff.mpr h0
            simp [h0, h1] at hp
            omega
          · have h1 : (resolveAt k v sub0 rest n).1.count ≠ 0 :=
              fun hh => h0 (hiff.mp hh)
            simp [h0, h1] at hp
            omega
        refine ⟨?_, by simp, ?_⟩
        · rw [invB_iff, setSubs_count, setSubs_subs, ownUnresolved_setSubs, hposeq]
          exact ⟨by omega, invList_setA _ _ _ hinv2.2 IH.1⟩
        · intro _
          rw [setSubs_count]

/-- C1 counterexample: after requesting A::x and A::y, the root's
pending-count is 1, while the claimed invariant (own unresolved slots plus
the SUM of children's pending-counts) gives 2 — and the second insertion did
not increment the root, because `incUnresolved` propagates only when a
node's count was 0. -/
theorem c1_pending_count_counterexample :
    c1ns1.count = 1 ∧ c1ns2.count = 1 ∧
    ownUnresolved c1ns2 + sumChildCounts c1ns2 = 2 ∧
    ¬(c1ns2.count = ownUnresolved c1ns2 + sumChildCounts c1ns2) := by
  refine ⟨rfl, rfl, rfl, by decide⟩

/-- C1 amended: the invariant the code maintains is that a node's
pending-count equals its own unresolved slots plus the NUMBER of children
with nonzero pending-count; an insertion increments the leaf and each
ancestor up to and including the first ancestor whose subtree already had
pending symbols (propagation stops there), and resolution decrements
symmetrically.  This invariant is preserved by every
`addType`/`addVar`/`addFunc` insertion and by every slot resolution with its
`decUnresolved` walk. -/
theorem c1_pending_count_invariant (k : SKind) (v : Nat) (ns : NS)
    (path : List String) (n : String) (h : invB ns = true) :
    invB (addToSet k ns path).1 = true ∧
    invB (resolveAt k v ns path n).1 = true :=
  ⟨(addToSet_spec k path ns h).1, (resolveAt_spec k v path ns n h).1⟩

/-- C1 witness: the empty root satisfies the invariant, and so does the tree
after an insertion and after a resolution attempt. -/
theorem c1_pending_count_invariant_witness :
    invB (addToSet .var emptyNS [("A"), ("x")]).1 = true ∧
    invB (resolveAt .var 42 emptyNS [("A"), ("x")] ("x")).1 = true :=
  c1_pending_count_invariant .var 42 emptyNS [("A"), ("x")] ("x") invB_empty

/-! ### Traversal lemmas -/

theorem getMap_setMap_self (k : SKind) (ns : NS) (m : List (String × Option Nat)) :
    getMap k (setMap k ns m) = m := by
  cases ns
  cases k <;> rfl

theorem getMap_setCount (k : SKind) (ns : NS) (c : Nat) :
    getMap k (setCount ns c) = getMap k ns := by
  cases ns
  cases k <;> rfl

/-- Resolving a slot fills it: after `resolveAt` at a context whose selected
map holds `n` unresolved, the node at that context path holds `some v` for
`n`. -/
theorem resolveAt_fills (k : SKind) (v : Nat) : ∀ (path : List String)
    (ns t : NS) (n : String), getNS ns path = some t →
    lookupA (getMap k t) n = some none →
    ∃ t2, getNS (resolveAt k v ns path n).1 path = some t2 ∧
      lookupA (getMap k t2) n = some (some v) := by
  intro path
  induction path with
  | nil =>
    intro ns t n hg hslot
    simp only [getNS, Option.some.injEq] at hg
    subst hg
    simp only [resolveAt, hslot]
    refine ⟨_, rfl, ?_⟩
    rw [getMap_setCount, getMap_setMap_self]
    exact lookupA_setA_self _ _ _
  | cons p rest ih =>
    intro ns t n hg hslot
    simp only [getNS] at hg
    cases h : lookupA ns.subs p with
    | none =>
      rw [h] at hg
      simp at hg
    | some sub =>
      rw [h] at hg
      simp only at hg
      simp only [resolveAt, h]
      by_cases hflag : (resolveAt k v sub rest n).2 = true
      · rw [if_pos hflag]
        obtain ⟨t2, ht1, ht2⟩ := ih sub t n hg hslot
        refine ⟨t2, ?_, ht2⟩
        simp only [getNS, setCount_subs, setSubs_subs, lookupA_setA_self]
        exact ht1
      · rw [if_neg hflag]
        obtain ⟨t2, ht1, ht2⟩ := ih sub t n hg hslot
        refine ⟨t2, ?_, ht2⟩
        simp only [getNS, setSubs_subs, lookupA_setA_self]
        exact ht1

/-- C7 counterexample: a declaration-only variable entry DOES fill its
resolution slot, because `examineDIE` handles `DW_TAG_variable` before the
declaration-only test. -/
theorem c7_declaration_variable_counterexample :
    c7die.declaration = true ∧
    lookupA ((examineDIE c7rst [] c7die).1.root.vars) ("v") = some (some 42) := by
  exact ⟨rfl, rfl⟩

/-- C7 amended: a declaration-only entry that is not a variable (and not a
unit entry) is skipped entirely by `examineDIE` — no slot is filled and no
context is descended into — and a later defining entry of the same name can
still resolve a slot that is still unresolved; but a declaration-only
VARIABLE entry does fill the variable slot, since the variable branch runs
before the declaration-only test. -/
theorem c7_declaration_skip (rst : RSt) (path : List String) (die die2 : DIE)
    (n : String) (t : NS)
    (h1 : die.declaration = true) (h2 : die.tag ≠ DW_TAG_variable)
    (h3 : die.tag ≠ DW_TAG_compile_unit) (h4 : die.tag ≠ DW_TAG_partial_unit) :
    examineDIE rst path die = (rst, none) ∧
    (die2.tag = DW_TAG_subprogram → die2.declaration = false →
      die2.name = some n → getNS rst.root path = some t →
      lookupA t.funcs n = some none →
      ∃ t2, getNS (examineDIE rst path die2).1.root path = some t2 ∧
        lookupA t2.funcs n = some (some die2.offset)) := by
  constructor
  · simp only [examineDIE]
    rw [if_neg (by exact fun hor => hor.elim h3 h4)]
    cases hn : die.name with
    | none => rfl
    | some nm => simp [h1, h2]
  · intro hs hd hn hg hslot
    have hne1 : ¬(die2.tag = DW_TAG_compile_unit ∨ die2.tag = DW_TAG_partial_unit) := by
      rw [hs]
      decide
    have hne2 : die2.tag ≠ DW_TAG_variable := by
      rw [hs]
      decide
    simp only [examineDIE, hn]
    rw [if_neg hne1]
    rw [if_neg hne2, if_neg (by rw [hd]; exact Bool.false_ne_true), if_pos hs]
    obtain ⟨t2, ht1, ht2⟩ := resolveAt_fills .fn die2.offset path rst.root t n hg hslot
    exact ⟨t2, ht1, ht2⟩

/-- C7 witness: a subprogram definition entry resolves the requested
function f even though an earlier declaration-only entry was skipped. -/
theorem c7_declaration_skip_witness :
    ∃ t2, getNS (examineDIE c7rstF [] c7die2).1.root [] = some t2 ∧
      lookupA t2.funcs ("f") = some (some c7die2.offset) :=
  (c7_declaration_skip c7rstF [] c7die1 c7die2 ("f") c7rootF rfl (by decide)
    (by decide) (by decide)).2 rfl rfl rfl rfl rfl

/-! ### Pruned-enumeration lemmas -/

theorem enumOk_aux {σ Ctx : Type} (rc : σ → Nat)
    (f : σ → DTree → Ctx → σ × Option Ctx) : ∀ n : Nat,
    (∀ t : DTree, sizeOf t ≤ n → ∀ (ctx : Ctx) (s : σ),
      enumOk (enumerateDIEs rc f t ctx s)) ∧
    (∀ l : List DTree, sizeOf l ≤ n → ∀ (ctx : Ctx) (s : σ),
      enumOk (enumerateList rc f l ctx s)) := by
  intro n
  induction n using Nat.strong_induction_on with
  | _ n ihn =>
    constructor
    · intro t hsz ctx s
      obtain ⟨i, children⟩ := t
      have hlt : sizeOf children < n := by
        have : sizeOf children < sizeOf (DTree.node i children) := by
          simp [DTree.node.sizeOf_spec]
        omega
      rw [enumerateDIEs]
      by_cases hz : rc (f s (DTree.node i children) ctx).1 = 0
      · rw [if_pos hz]
        refine ⟨by simp, ?_⟩
        intro _
        exact ⟨[], (i, rc (f s (DTree.node i children) ctx).1), rfl, hz, by simp⟩
      · rw [if_neg hz]
        cases hctx : (f s (DTree.node i children) ctx).2 with
        | none =>
          refine ⟨?_, by simp⟩
          intro _ x hx
          simp only [List.mem_singleton] at hx
          subst hx
          exact hz
        | some c =>
          have IH := (ihn (sizeOf children) hlt).2 children (by omega) c
            (f s (DTree.node i children) ctx).1
          obtain ⟨hfalse, htrue⟩ := IH
          constructor
          · intro hstop x hx
            simp only at hstop
            simp only [List.mem_cons] at hx
            rcases hx with hx | hx
            · subst hx
              exact hz
            · exact hfalse hstop x hx
          · intro hstop
            simp only at hstop
            obtain ⟨pre, lastv, heq, hlz, hpre⟩ := htrue hstop
            refine ⟨(i, rc (f s (DTree.node i children) ctx).1) :: pre, lastv, ?_, hlz, ?_⟩
            · simp [heq]
            · intro x hx
              simp only [List.mem_cons] at hx
              rcases hx with hx | hx
              · subst hx
                exact hz
              · exact hpre x hx
    · intro l hsz ctx s
      cases l with
      | nil =>
        rw [enumerateList]
        exact ⟨by simp, by simp⟩
      | cons t ts =>
        have hlt1 : sizeOf t < n := by
          have : sizeOf t < sizeOf (t :: ts) := by
            simp
            omega
          omega
        have hlt2 : sizeOf ts < n := by
          have : sizeOf ts < sizeOf (t :: ts) := by
            simp
          omega
        rw [enumerateList]
        have IH1 := (ihn (sizeOf t) hlt1).1 t (by omega) ctx s
        by_cases hstop1 : (enumerateDIEs rc f t ctx s).2.2 = true
        · rw [if_pos hstop1]
          exact IH1
        · rw [if_neg hstop1]
          have hstop1f : (enumerateDIEs rc f t ctx s).2.2 = false := by
            simpa using hstop1
          have IH2 := (ihn (sizeOf ts) hlt2).2 ts (by omega) ctx
            (enumerateDIEs rc f t ctx s).1
          obtain ⟨h1false, _⟩ := IH1
          obtain ⟨h2false, h2true⟩ := IH2
          constructor
          · intro hstop x hx
            simp only at hstop
            simp only [List.mem_append] at hx
            rcases hx with hx | hx
            · exact h1false hstop1f x hx
            · exact h2false hstop x hx
          · intro hstop
            simp only at hstop
            obtain ⟨pre, lastv, heq, hlz, hpre⟩ := h2true hstop
            refine ⟨(enumerateDIEs rc f t ctx s).2.1 ++ pre, lastv, ?_, hlz, ?_⟩
            · simp [heq]
            · intro x hx
              simp only [List.mem_append] at hx
              rcases hx with hx | hx
              · exact h1false hstop1f x hx
              · exact hpre x hx

/-- C2: in any enumeration driven by `enumerateDIEs`/`enumerateList`, once
the root pending-count reaches zero after some visit, that visit is the last
one — every earlier visit left a nonzero count, no later entry is visited,
and the walk ends through the StopIteration early-exit flag. -/
theorem c2_prune_after_zero {σ Ctx : Type} (rc : σ → Nat)
    (f : σ → DTree → Ctx → σ × Option Ctx) (units : List DTree) (ctx : Ctx)
    (s : σ) : enumOk (enumerateList rc f units ctx s) :=
  (enumOk_aux rc f (sizeOf units)).2 units (by omega) ctx s

/-- C2 witness: the driver instantiated with the real `examineDIE` on a
two-entry tree whose first entry resolves the only requested symbol. -/
theorem c2_prune_after_zero_witness :
    enumOk (enumerateList (fun s : RSt => s.root.count) c2step
      [DTree.node 0 [], DTree.node 1 []] [] c2rst) :=
  c2_prune_after_zero (fun s : RSt => s.root.count) c2step
    [DTree.node 0 [], DTree.node 1 []] [] c2rst

end CTypeGenProof
